import Mathlib

/-!
Shallow embedding of the Omni voice booking assistant (src/App.tsx).

The repository contains two application variants in one file:
a richer variant (App.tsx, first copy) and a reduced variant
(App.tsx, second copy).  Both are embedded here where the claims
need them ("Rich" and "Red" suffixes).

Modelling conventions:
* machine numbers are Nat / Int / Rat, never bitvectors or floats;
* a JS date string is represented by the result of parsing it with
  `new Date(...)`: `Option Int` carrying the epoch-millisecond value,
  `none` for an unparseable string (NaN timestamp) — the host parser
  itself is a platform API and is not re-implemented;
* host randomness (Math.random confirmation codes) is an oracle
  stream carried in the state;
* host-generated `id` / `created_at` fields written by saveBooking
  (crypto.randomUUID, Date.toISOString) are omitted: no claim
  mentions them and no other code reads them.
-/

/-- Result of parsing a JS date string: epoch milliseconds, or `none`
for an invalid date (source: `new Date(s)` followed by `isNaN` check). -/
abbrev DateStr := Option Int

/-- Rate table, in declared key order (source: `ROOM_RATES`, App.tsx). -/
def ROOM_RATES : List (String × Nat) :=
  [("standard", 150), ("double", 180), ("deluxe", 250),
   ("family", 300), ("suite", 450), ("presidential", 1200)]

/-- JS `String.prototype.toLowerCase` restricted to the characters the
rate keys use (source call site: `roomType.toLowerCase()`). -/
def jsToLower (s : String) : String := String.mk (s.toList.map Char.toLower)

/-- Whether `pat` starts the list `l` (helper for `jsIncludes`). -/
def startsWithList : List Char → List Char → Bool
  | _, [] => true
  | [], _ :: _ => false
  | a :: as, b :: bs => a == b && startsWithList as bs

/-- Whether `pat` occurs contiguously in `l` (helper for `jsIncludes`). -/
def containsList : List Char → List Char → Bool
  | l, pat =>
    match l with
    | [] => pat.isEmpty
    | _ :: t => startsWithList l pat || containsList t pat

/-- JS `String.prototype.includes` (source call site: `.includes(r)`). -/
def jsIncludes (s pat : String) : Bool := containsList s.toList pat.toList

/-- First rate-table key contained in the lowered room type, defaulting
to `"standard"` (source: `Object.keys(ROOM_RATES).find(...) || 'standard'`). -/
def roomKey (roomType : String) : String :=
  ((ROOM_RATES.map Prod.fst).find? (fun r => jsIncludes (jsToLower roomType) r)).getD "standard"

/-- Rate looked up for a room type (source: `ROOM_RATES[key]`). -/
def roomRate (roomType : String) : Nat :=
  (ROOM_RATES.lookup (roomKey roomType)).getD 0

/-- Cost breakdown as returned by `calculateStayCost` (source object
`{nights, rate, total}`). -/
structure Financials where
  nights : Nat
  rate : Nat
  total : Nat
  deriving DecidableEq

/-- JS `Math.ceil (a / b)` for nonnegative integer `a` and positive
integer `b`: exact ceiling division. -/
def ceilDivN (a b : Nat) : Nat := (a + b - 1) / b

/-- Pricing function (source: `calculateStayCost`, App.tsx lines 18-39).
The two date strings appear as their parse results (`DateStr`); the
source returns `null` when either date is NaN, `Option` here. -/
def calculateStayCost (checkIn checkOut : DateStr) (roomType : String) :
    Option Financials :=
  match checkIn, checkOut with
  | some start, some stop =>
    let diffTime : Nat := (stop - start).natAbs
    let nights := ceilDivN diffTime (1000 * 60 * 60 * 24)
    let rate := roomRate roomType
    some { nights := if nights = 0 then 1 else nights
           rate := rate
           total := (if nights = 0 then 1 else nights) * rate }
  | _, _ => none

/-- Specification-side reading of "case-insensitive substring": the
lowered key occurs in the lowered room type. -/
def caseInsensitiveSubstr (key roomType : String) : Bool :=
  jsIncludes (jsToLower roomType) (jsToLower key)

/-- Specification-side nights count: `max(1, ceil(|check_out − check_in| / 1 day))`,
with the ceiling taken over the exact rational day difference. -/
def specNights (start stop : Int) : Nat :=
  max 1 ⌈(((stop - start).natAbs : ℚ) / 86400000)⌉₊

/-! ### Supporting lemmas for the pricing claims -/

/-- Ceiling division by the milliseconds-per-day constant agrees with the
exact rational ceiling. -/
theorem ceilDivN_day (a : Nat) : ceilDivN a 86400000 = ⌈((a : ℚ) / 86400000)⌉₊ := by
  have hb : (0:ℚ) < 86400000 := by norm_num
  unfold ceilDivN
  apply le_antisymm
  · have h1 : (a:ℚ)/86400000 ≤ ((⌈(a:ℚ)/86400000⌉₊ : ℕ) : ℚ) := Nat.le_ceil _
    have h2 : (a:ℚ) ≤ ((⌈(a:ℚ)/86400000⌉₊ : ℕ) : ℚ) * 86400000 := by
      rwa [div_le_iff₀ hb] at h1
    have h3 : a ≤ ⌈(a:ℚ)/86400000⌉₊ * 86400000 := by exact_mod_cast h2
    omega
  · apply Nat.ceil_le.2
    rw [div_le_iff₀ hb]
    have h4 : a ≤ ((a + 86400000 - 1) / 86400000) * 86400000 := by omega
    exact_mod_cast h4

/-- `find?` returns the head of the filtered list. -/
theorem find?_eq_filterHead {α : Type} (p : α → Bool) (l : List α) :
    l.find? p = (l.filter p).head? := by
  induction l with
  | nil => rfl
  | cons a t ih =>
    cases hpa : p a with
    | true => rw [List.find?_cons_of_pos _ hpa, List.filter_cons_of_pos hpa]; rfl
    | false =>
      rw [List.find?_cons_of_neg _ (by simp [hpa]), List.filter_cons_of_neg (by simp [hpa]), ih]

/-- Every rate-table key is already lower case. -/
theorem lower_fixed : ∀ q ∈ ROOM_RATES, jsToLower q.1 = q.1 := by decide

/-- Looking a rate-table entry up by its own key returns its rate
(the keys are pairwise distinct). -/
theorem lookup_self : ∀ q ∈ ROOM_RATES, ROOM_RATES.lookup q.1 = some q.2 := by decide

/-- C6: for every pair of successfully parsed check-in/check-out dates the
priced nights equal `max(1, ceil(|check_out − check_in| / 1 day))` — in
particular same-day and inverted-date stays price as one night — and the
total is nights times the per-night rate. -/
theorem calculateStayCost_nights_total (s e : Int) (rt : String) :
    calculateStayCost (some s) (some e) rt =
      some { nights := specNights s e, rate := roomRate rt,
             total := specNights s e * roomRate rt } := by
  have hml : (1000 * 60 * 60 * 24 : Nat) = 86400000 := by norm_num
  have key : ∀ n : Nat, (if n = 0 then 1 else n) = max 1 n := by
    intro n; rcases n with _ | m <;> simp [Nat.max_def]
  unfold calculateStayCost specNights
  simp only [hml, ceilDivN_day, key]

/-- C7: if some rate-table key is a case-insensitive substring of the room
type, the rate used is that of the first such key in table-declared order;
otherwise the rate is the standard rate 150; and pricing never fails because
of the room-type text. -/
theorem roomRate_fuzzy_match (roomType : String) :
    (∀ p : String × Nat,
        (ROOM_RATES.filter (fun q => caseInsensitiveSubstr q.1 roomType)).head? = some p →
        roomRate roomType = p.2) ∧
    ((ROOM_RATES.filter (fun q => caseInsensitiveSubstr q.1 roomType)) = [] →
        roomRate roomType = 150) ∧
    (∀ s e : Int, (calculateStayCost (some s) (some e) roomType).isSome) := by
  have hfilter : ROOM_RATES.filter (fun q => caseInsensitiveSubstr q.1 roomType)
      = ROOM_RATES.filter (fun q => jsIncludes (jsToLower roomType) q.1) := by
    apply List.filter_congr
    intro q hq
    unfold caseInsensitiveSubstr
    rw [lower_fixed q hq]
  have hfind : (ROOM_RATES.map Prod.fst).find? (fun r => jsIncludes (jsToLower roomType) r)
      = (ROOM_RATES.find? (fun q => jsIncludes (jsToLower roomType) q.1)).map Prod.fst := by
    rw [List.find?_map]
    rfl
  refine ⟨?_, ?_, ?_⟩
  · intro p hp
    rw [hfilter, ← find?_eq_filterHead] at hp
    have hmem : p ∈ ROOM_RATES := List.mem_of_find?_eq_some hp
    unfold roomRate roomKey
    rw [hfind, hp]
    show (List.lookup p.1 ROOM_RATES).getD 0 = p.2
    rw [lookup_self p hmem]
    rfl
  · intro hp
    rw [hfilter] at hp
    have hnone : ROOM_RATES.find? (fun q => jsIncludes (jsToLower roomType) q.1) = none := by
      rw [find?_eq_filterHead, hp]
      rfl
    unfold roomRate roomKey
    rw [hfind, hnone]
    rfl
  · intro s e
    rfl

/-- Witness for C7: a free-text deluxe request is priced at the deluxe rate,
and an unknown room text falls back to the standard rate. -/
theorem roomRate_fuzzy_match_witness :
    roomRate "a nice Deluxe room" = 250 ∧ roomRate "igloo" = 150 :=
  ⟨(roomRate_fuzzy_match "a nice Deluxe room").1 ("deluxe", 250) (by decide),
   (roomRate_fuzzy_match "igloo").2.1 (by decide)⟩

/-! ### Booking data model (src: types.ts `BookingDetails`, `User`) -/

/-- Booking status values (source: `status?: 'confirmed' | 'pending' | 'cancelled'`). -/
inductive BStatus where
  | confirmed
  | pending
  | cancelled
  deriving DecidableEq

/-- Booking record; `Option` marks a field that may be absent from the JS
object.  Date-string fields hold the parse-result surrogate `DateStr`.
Host-generated `id` / `created_at` are omitted (see the header note). -/
structure BookingDetails where
  name : Option String := none
  phone : Option String := none
  email : Option String := none
  room_type : Option String := none
  check_in_date : Option DateStr := none
  check_out_date : Option DateStr := none
  guests : Option String := none
  branch : Option String := none
  special_requests : Option String := none
  status : Option BStatus := none
  confirmation_code : Option String := none
  price_per_night : Option Nat := none
  total_nights : Option Nat := none
  total_cost : Option Nat := none
  deriving DecidableEq

/-- A registered user (source: `User`). -/
structure User where
  name : String
  email : String
  deriving DecidableEq

/-- Field-wise JS object spread `{...prev, ...new}`: a field of the right
operand that is present overrides the left. -/
def oupd {α : Type} (new old : Option α) : Option α :=
  match new with
  | some v => some v
  | none => old

/-- JS `{...prev, ...upd}` on booking-shaped objects. -/
def mergeBooking (prev upd : BookingDetails) : BookingDetails :=
  { name := oupd upd.name prev.name
    phone := oupd upd.phone prev.phone
    email := oupd upd.email prev.email
    room_type := oupd upd.room_type prev.room_type
    check_in_date := oupd upd.check_in_date prev.check_in_date
    check_out_date := oupd upd.check_out_date prev.check_out_date
    guests := oupd upd.guests prev.guests
    branch := oupd upd.branch prev.branch
    special_requests := oupd upd.special_requests prev.special_requests
    status := oupd upd.status prev.status
    confirmation_code := oupd upd.confirmation_code prev.confirmation_code
    price_per_night := oupd upd.price_per_night prev.price_per_night
    total_nights := oupd upd.total_nights prev.total_nights
    total_cost := oupd upd.total_cost prev.total_cost }

/-! ### MockDatabase (source: `MockDatabase`, App.tsx lines 41-79)

The `localStorage` key-value store appears as the explicit list of stored
bookings threaded through each operation (newest first, as `unshift`
prepends). -/

namespace MockDatabase

/-- `saveBooking`: prepends the booking with status `confirmed`
(source lines 42-53; host-generated `id`/`created_at` omitted). -/
def saveBooking (booking : BookingDetails) (store : List BookingDetails) :
    BookingDetails × List BookingDetails :=
  let newBooking := { booking with status := some BStatus.confirmed }
  (newBooking, newBooking :: store)

/-- `getBookings`: the stored bookings of one user (source lines 54-57). -/
def getBookings (userEmail : String) (store : List BookingDetails) :
    List BookingDetails :=
  store.filter (fun b => b.email == some userEmail)

/-- `cancelBooking`: marks every booking carrying the code cancelled and
reports whether any matched (source lines 58-70).  The argument is the raw
`confirmation_code` tool argument, which may be absent (`none`), matching
JS `undefined === undefined` semantics at the comparison. -/
def cancelBooking (confirmationCode : Option String) :
    List BookingDetails → List BookingDetails × Bool
  | [] => ([], false)
  | b :: rest =>
    let (updated, found) := cancelBooking confirmationCode rest
    if b.confirmation_code = confirmationCode then
      ({ b with status := some BStatus.cancelled } :: updated, true)
    else
      (b :: updated, found)

end MockDatabase

/-- C10: `cancelBooking code` maps every stored booking whose
`confirmation_code` equals the code — whatever user email it carries — to
the same booking with status `cancelled`, leaves every other booking (and
every other field of the updated ones) unchanged, and returns `true` exactly
when at least one booking matched. -/
theorem cancelBooking_spec (code : Option String) (store : List BookingDetails) :
    MockDatabase.cancelBooking code store =
      (store.map (fun b =>
          if b.confirmation_code = code
          then { b with status := some BStatus.cancelled } else b),
       store.any (fun b => b.confirmation_code == code)) ∧
    ((MockDatabase.cancelBooking code store).2 = true ↔
      ∃ b ∈ store, b.confirmation_code = code) := by
  have hmain : ∀ l : List BookingDetails,
      MockDatabase.cancelBooking code l =
        (l.map (fun b =>
            if b.confirmation_code = code
            then { b with status := some BStatus.cancelled } else b),
         l.any (fun b => b.confirmation_code == code)) := by
    intro l
    induction l with
    | nil => rfl
    | cons b rest ih =>
      unfold MockDatabase.cancelBooking
      rw [ih]
      by_cases h : b.confirmation_code = code
      · simp [h]
      · simp [h]
  refine ⟨hmain store, ?_⟩
  rw [hmain store]
  simp

/-! ### Tool-call protocol (source: onmessage handlers of both variants) -/

/-- Arguments of a tool call; every field the handlers read.  A field is
`none` when the remote agent did not supply it.  Date arguments carry the
`DateStr` parse surrogate. -/
structure ToolArgs where
  room_type : String := ""
  check_in_date : DateStr := none
  check_out_date : DateStr := none
  guests : Option String := none
  name : Option String := none
  phone : Option String := none
  branch : Option String := none
  special_requests : Option String := none
  total_cost : Option Nat := none
  confirmation_code : Option String := none
  deriving DecidableEq

/-- One function call from the remote agent (source: `call` in
`message.toolCall.functionCalls`). -/
structure ToolCall where
  id : String
  name : String
  args : ToolArgs
  deriving DecidableEq

/-- Result payload shapes produced by the richer variant dispatch chain. -/
inductive ToolOutcome where
  | available (nights rate total : Nat) (currency : String)
  | unavailable (message : String)
  | confirmed (confirmation_code : String)
  | bookings (items : List BookingDetails)
  | cancelSuccess (message : String)
  | cancelError (message : String)
  | emptyObj
  deriving DecidableEq

/-- One correlated tool response (source: `{ id: call.id, name: call.name,
response: { result } }`). -/
structure ToolResult where
  id : String
  name : String
  response : ToolOutcome
  deriving DecidableEq

/-- Email notification state (richer variant `emailStatus`). -/
inductive EmailStatus where
  | idle
  | sending
  | sent
  deriving DecidableEq

/-- Mutable state of the richer variant touched by `onmessage`: the playback
scheduler pair (`nextStartTimeRef`, `scheduledSourcesRef`, each scheduled
source shown as its (start, duration) interval), the booking drafts, the
stored bookings, the email status, and the oracle stream of confirmation
codes standing for `Math.random`. -/
structure AppStateRich where
  nextStartTime : ℚ := 0
  scheduled : List (ℚ × ℚ) := []
  currentBooking : BookingDetails := {}
  finalizedBooking : Option BookingDetails := none
  db : List BookingDetails := []
  emailStatus : EmailStatus := EmailStatus.idle
  codeSupply : List String := []
  deriving DecidableEq

/-- JS spread `{...args}` of a tool-argument object into booking shape:
required arguments are always present, optional ones keep their presence. -/
def spreadArgs (a : ToolArgs) : BookingDetails :=
  { room_type := some a.room_type
    check_in_date := some a.check_in_date
    check_out_date := some a.check_out_date
    guests := a.guests
    name := a.name
    phone := a.phone
    branch := a.branch
    special_requests := a.special_requests
    total_cost := a.total_cost
    confirmation_code := a.confirmation_code }

/-- Richer-variant dispatch chain body (source: App.tsx lines 559-610): the
`if/else` chain over `call.name` that computes `result` and performs the
state updates.  `sendConfirmationEmail` completion (`setEmailStatus('sent')`)
is a later external event, not part of this handler. -/
def dispatchRich (user : User) (s : AppStateRich) (call : ToolCall) :
    AppStateRich × ToolOutcome :=
  if call.name = "check_availability" then
    let args := call.args
    let financials := calculateStayCost args.check_in_date args.check_out_date args.room_type
    let enrichedDetails : BookingDetails :=
      { spreadArgs args with
        price_per_night := some ((financials.map Financials.rate).getD 0)
        total_cost := some ((financials.map Financials.total).getD 0)
        total_nights := some ((financials.map Financials.nights).getD 0) }
    let s2 := { s with currentBooking := mergeBooking s.currentBooking enrichedDetails }
    match financials with
    | some f => (s2, ToolOutcome.available f.nights f.rate f.total "USD")
    | none => (s2, ToolOutcome.unavailable "Invalid dates or room type.")
  else if call.name = "finalize_booking" then
    let confCode := s.codeSupply.headD "OMNI-0000"
    let completeBooking :=
      { spreadArgs call.args with
        email := some user.email, confirmation_code := some confCode }
    let saved := MockDatabase.saveBooking completeBooking s.db
    ({ s with currentBooking := completeBooking
              finalizedBooking := some completeBooking
              db := saved.2
              emailStatus := EmailStatus.sending
              codeSupply := s.codeSupply.tail },
     ToolOutcome.confirmed confCode)
  else if call.name = "list_bookings" then
    let activeBookings :=
      (MockDatabase.getBookings user.email s.db).filter
        (fun b => b.status == some BStatus.confirmed)
    (s, ToolOutcome.bookings activeBookings)
  else if call.name = "cancel_booking" then
    let r := MockDatabase.cancelBooking call.args.confirmation_code s.db
    if r.2 then
      ({ s with db := r.1 }, ToolOutcome.cancelSuccess "Booking cancelled")
    else
      ({ s with db := r.1 }, ToolOutcome.cancelError "Booking not found")
  else
    (s, ToolOutcome.emptyObj)

/-- One richer-variant tool call handled and wrapped with its correlation
ids (source: `responses.push({ id: call.id, name: call.name,
response: { result } })`). -/
def handleCallRich (user : User) (s : AppStateRich) (call : ToolCall) :
    AppStateRich × ToolResult :=
  let r := dispatchRich user s call
  (r.1, { id := call.id, name := call.name, response := r.2 })

/-- Richer-variant loop over `message.toolCall.functionCalls`, accumulating
the batch of responses that a single `sendToolResponse` then sends. -/
def handleBatchRich (user : User) :
    AppStateRich → List ToolCall → AppStateRich × List ToolResult
  | s, [] => (s, [])
  | s, c :: cs =>
    let r := handleCallRich user s c
    let rest := handleBatchRich user r.1 cs
    (rest.1, r.2 :: rest.2)

/-- A decoded audio chunk; `decodeAudioData` (platform decoder) is
abstracted to the duration of the buffer it yields. -/
structure Chunk where
  dur : ℚ
  deriving DecidableEq

/-- One inbound server message: optional inline audio, the interruption
flag, the batch of tool calls (empty list when the `toolCall` field is
absent), and the output-device clock value `ctx.currentTime` observed while
handling it. -/
structure LiveMsg where
  audio : Option Chunk := none
  interrupted : Bool := false
  toolCalls : List ToolCall := []
  now : ℚ := 0
  deriving DecidableEq

/-- Scheduling one chunk (both variants): `startAt = max(nextStartTime,
ctx.currentTime)`, then the clock advances by the duration.  Returns the
new clock and the scheduled (start, duration) interval. -/
def enqueueChunk (clock now dur : ℚ) : ℚ × (ℚ × ℚ) :=
  let start := max clock now
  (start + dur, (start, dur))

/-- Richer-variant `onmessage` (App.tsx lines 542-614): schedule inline
audio, then dispatch the tool-call batch.  Note: this variant never reads
`message.serverContent.interrupted`. -/
def processMessageRich (user : User) (s : AppStateRich) (m : LiveMsg) :
    AppStateRich × List ToolResult :=
  let s1 := match m.audio with
    | none => s
    | some ch =>
      let r := enqueueChunk s.nextStartTime m.now ch.dur
      { s with nextStartTime := r.1, scheduled := s.scheduled ++ [r.2] }
  handleBatchRich user s1 m.toolCalls

/-- The ordered inbound message sequence processed one message at a time
(spec section 5's delivery model), collecting each message's response
batch. -/
def processMessagesRich (user : User) :
    AppStateRich → List LiveMsg → AppStateRich × List (List ToolResult)
  | s, [] => (s, [])
  | s, m :: ms =>
    let r := processMessageRich user s m
    let rest := processMessagesRich user r.1 ms
    (rest.1, r.2 :: rest.2)

/-! ### Reduced variant (second App.tsx copy, lines 1122-1179) -/

/-- Result payload shapes of the reduced dispatch chain:
`{status: 'available', ...financials}` (fields absent when pricing returned
null), `{status: 'success', confirmation_code}`, or the untouched `{}`. -/
inductive ToolOutcomeRed where
  | available (financials : Option Financials)
  | success (confirmation_code : String)
  | emptyObj
  deriving DecidableEq

/-- One correlated reduced-variant tool response (source:
`sendToolResponse({functionResponses: {id, name, response}})`). -/
structure ToolResultRed where
  id : String
  name : String
  response : ToolOutcomeRed
  deriving DecidableEq

/-- Mutable state of the reduced variant touched by `onmessage`. -/
structure AppStateRed where
  nextStartTime : ℚ := 0
  scheduled : List (ℚ × ℚ) := []
  currentBooking : BookingDetails := {}
  finalizedBooking : Option BookingDetails := none
  db : List BookingDetails := []
  codeSupply : List String := []
  deriving DecidableEq

/-- Reduced-variant dispatch chain body (source lines 1154-1166).  Only
`check_availability` and `finalize_booking` have branches; every other
name — `cancel_booking` included — leaves `result = {}`.  The user may be
null (`user?.email`). -/
def dispatchRed (user : Option User) (s : AppStateRed) (call : ToolCall) :
    AppStateRed × ToolOutcomeRed :=
  if call.name = "check_availability" then
    let args := call.args
    let financials := calculateStayCost args.check_in_date args.check_out_date args.room_type
    let s2 := { s with currentBooking :=
      { spreadArgs args with total_cost := financials.map Financials.total } }
    (s2, ToolOutcomeRed.available financials)
  else if call.name = "finalize_booking" then
    let code := s.codeSupply.headD "OMNI-0000"
    let booking :=
      { spreadArgs call.args with
        email := user.map User.email, confirmation_code := some code }
    let saved := MockDatabase.saveBooking booking s.db
    ({ s with finalizedBooking := some booking
              db := saved.2
              codeSupply := s.codeSupply.tail },
     ToolOutcomeRed.success code)
  else
    (s, ToolOutcomeRed.emptyObj)

/-- One reduced-variant call handled and wrapped with its correlation ids. -/
def handleCallRed (user : Option User) (s : AppStateRed) (call : ToolCall) :
    AppStateRed × ToolResultRed :=
  let r := dispatchRed user s call
  (r.1, { id := call.id, name := call.name, response := r.2 })

/-- Reduced-variant loop over `functionCalls`; each response is sent
individually inside the loop, so the handler of one message emits this
list of responses before the next message is handled. -/
def handleBatchRed (user : Option User) :
    AppStateRed → List ToolCall → AppStateRed × List ToolResultRed
  | s, [] => (s, [])
  | s, c :: cs =>
    let r := handleCallRed user s c
    let rest := handleBatchRed user r.1 cs
    (rest.1, r.2 :: rest.2)

/-- Reduced-variant `onmessage` (lines 1122-1179): on the interruption flag
stop every active source, clear the set and zero the clock; then schedule
inline audio; then dispatch tool calls. -/
def processMessageRed (user : Option User) (s : AppStateRed) (m : LiveMsg) :
    AppStateRed × List ToolResultRed :=
  let s1 := if m.interrupted then { s with scheduled := [], nextStartTime := 0 } else s
  let s2 := match m.audio with
    | none => s1
    | some ch =>
      let r := enqueueChunk s1.nextStartTime m.now ch.dur
      { s1 with nextStartTime := r.1, scheduled := s1.scheduled ++ [r.2] }
  handleBatchRed user s2 m.toolCalls

/-- Ordered message sequence for the reduced variant. -/
def processMessagesRed (user : Option User) :
    AppStateRed → List LiveMsg → AppStateRed × List (List ToolResultRed)
  | s, [] => (s, [])
  | s, m :: ms =>
    let r := processMessageRed user s m
    let rest := processMessagesRed user r.1 ms
    (rest.1, r.2 :: rest.2)

/-! ### C1: batch correlation of tool responses -/

/-- Each richer-variant batch yields one response per call, carrying the
originating id and name, in batch order. -/
theorem handleBatchRich_keys (u : User) (calls : List ToolCall) :
    ∀ s : AppStateRich,
      (handleBatchRich u s calls).2.map (fun r => (r.id, r.name))
        = calls.map (fun c => (c.id, c.name)) := by
  induction calls with
  | nil => intro s; rfl
  | cons c cs ih =>
    intro s
    simp only [handleBatchRich, List.map_cons, ih]
    rfl

/-- Each reduced-variant batch yields one response per call, carrying the
originating id and name, in batch order. -/
theorem handleBatchRed_keys (u : Option User) (calls : List ToolCall) :
    ∀ s : AppStateRed,
      (handleBatchRed u s calls).2.map (fun r => (r.id, r.name))
        = calls.map (fun c => (c.id, c.name)) := by
  induction calls with
  | nil => intro s; rfl
  | cons c cs ih =>
    intro s
    simp only [handleBatchRed, List.map_cons, ih]
    rfl

/-- C1: over any inbound message sequence, in both variants, the i-th
emitted response batch consists of exactly one result per tool call of the
i-th message, each carrying the id and name of its originating call — so a
batch of k calls produces exactly k correlated results, and the whole batch
is emitted by that message's handler before any later message's calls are
dispatched. -/
theorem toolDispatch_batch_correlated (u : User) (uo : Option User)
    (sR : AppStateRich) (sD : AppStateRed) (msgs : List LiveMsg) :
    (processMessagesRich u sR msgs).2.map (fun batch => batch.map (fun r => (r.id, r.name)))
      = msgs.map (fun m => m.toolCalls.map (fun c => (c.id, c.name))) ∧
    (processMessagesRed uo sD msgs).2.map (fun batch => batch.map (fun r => (r.id, r.name)))
      = msgs.map (fun m => m.toolCalls.map (fun c => (c.id, c.name))) := by
  constructor
  · induction msgs generalizing sR with
    | nil => rfl
    | cons m ms ih =>
      simp only [processMessagesRich, List.map_cons, ih]
      simp only [processMessageRich, handleBatchRich_keys]
  · induction msgs generalizing sD with
    | nil => rfl
    | cons m ms ih =>
      simp only [processMessagesRed, List.map_cons, ih]
      simp only [processMessageRed, handleBatchRed_keys]

/-! ### C2, C3, C5: interruption handling and dispatcher error behaviour -/

/-- A demonstration user account. -/
def demoUser : User := { name := "Ada", email := "ada@example.com" }

/-- An inbound message carrying only the barge-in interruption flag. -/
def interruptMsg : LiveMsg := { interrupted := true }

/-- Richer-variant state with one scheduled two-second chunk still pending. -/
def stateWithAudioRich : AppStateRich := { nextStartTime := 2, scheduled := [(0, 2)] }

/-- Reduced-variant state with one scheduled two-second chunk still pending. -/
def stateWithAudioRed : AppStateRed := { nextStartTime := 2, scheduled := [(0, 2)] }

/-- C2: the richer variant ignores the interruption signal — after an
inbound message with the interruption flag set, the previously scheduled
chunk is still in the scheduled set and the playback clock still holds its
future value, so stale audio keeps playing; the reduced variant, at the same
input, stops everything: it empties the scheduled set and resets the clock
to zero. -/
theorem interrupted_signal_dropped_rich :
    ((processMessageRich demoUser stateWithAudioRich interruptMsg).1.scheduled = [(0, 2)] ∧
     (processMessageRich demoUser stateWithAudioRich interruptMsg).1.nextStartTime = 2) ∧
    ((processMessageRed (some demoUser) stateWithAudioRed interruptMsg).1.scheduled = [] ∧
     (processMessageRed (some demoUser) stateWithAudioRed interruptMsg).1.nextStartTime = 0) :=
  ⟨⟨rfl, rfl⟩, ⟨rfl, rfl⟩⟩

/-- A fresh richer-variant session state (empty draft, empty store). -/
def freshStateRich : AppStateRich := {}

/-- A `check_availability` call whose check-in date failed to parse. -/
def badDatesCall : ToolCall :=
  { id := "call-1", name := "check_availability",
    args := { room_type := "suite", check_in_date := none, check_out_date := some 0 } }

/-- C3 counterexample: on an `Unpriceable` `check_availability` call the
richer variant does return the `unavailable` result with a message, but the
BookingDraft is NOT left unchanged — the echoed arguments and zeroed price
fields are merged into `currentBooking`. -/
theorem check_availability_unpriceable_cex :
    (handleCallRich demoUser freshStateRich badDatesCall).2.response
        = ToolOutcome.unavailable "Invalid dates or room type." ∧
    (handleCallRich demoUser freshStateRich badDatesCall).1.currentBooking
        ≠ freshStateRich.currentBooking := by
  exact ⟨rfl, by decide⟩

/-- C3 (amended): on every `check_availability` call whose dates make the
pricing function return `Unpriceable`, the handler returns a result with
status `unavailable` and a message, and merges the echoed arguments together
with zeroed `price_per_night` / `total_cost` / `total_nights` into the
BookingDraft (everything else in the state is unchanged). -/
theorem check_availability_unpriceable (u : User) (s : AppStateRich) (c : ToolCall)
    (hname : c.name = "check_availability")
    (hfail : calculateStayCost c.args.check_in_date c.args.check_out_date c.args.room_type = none) :
    (handleCallRich u s c).2 =
      { id := c.id, name := c.name,
        response := ToolOutcome.unavailable "Invalid dates or room type." } ∧
    (handleCallRich u s c).1 =
      { s with currentBooking := (mergeBooking s.currentBooking
          { spreadArgs c.args with
            price_per_night := some 0, total_cost := some 0, total_nights := some 0 }) } := by
  unfold handleCallRich dispatchRich
  rw [hname, if_pos rfl]
  simp only [hfail]
  exact ⟨trivial, rfl⟩

/-- Witness for C3 at the concrete unparseable-date call. -/
theorem check_availability_unpriceable_witness :
    (handleCallRich demoUser freshStateRich badDatesCall).2 =
      { id := badDatesCall.id, name := badDatesCall.name,
        response := ToolOutcome.unavailable "Invalid dates or room type." } ∧
    (handleCallRich demoUser freshStateRich badDatesCall).1 =
      { freshStateRich with currentBooking := (mergeBooking freshStateRich.currentBooking
          { spreadArgs badDatesCall.args with
            price_per_night := some 0, total_cost := some 0, total_nights := some 0 }) } :=
  check_availability_unpriceable demoUser freshStateRich badDatesCall rfl rfl

/-- Modelled from the spec: a "structured error result" is a payload that
carries an error or unavailable status with a message. -/
def isErrorOutcome : ToolOutcome → Bool
  | ToolOutcome.unavailable _ => true
  | ToolOutcome.cancelError _ => true
  | _ => false

/-- A tool call whose name is outside the fixed tool vocabulary. -/
def unknownCall : ToolCall := { id := "call-7", name := "book_flight", args := {} }

/-- C5 counterexample: an unknown tool name receives a response correlated
to its call id, but the payload is the untouched empty object `{}`, not a
structured error result. -/
theorem unknown_tool_cex :
    (handleCallRich demoUser freshStateRich unknownCall).2 =
      { id := "call-7", name := "book_flight", response := ToolOutcome.emptyObj } ∧
    isErrorOutcome (handleCallRich demoUser freshStateRich unknownCall).2.response = false :=
  ⟨rfl, rfl⟩

/-- C5 (amended): every call whose name is none of the four known tools is
not silently dropped — it receives exactly one response carrying its id and
name — but the result payload is the empty object rather than a structured
error; the state is untouched. -/
theorem unknown_tool_response (u : User) (s : AppStateRich) (c : ToolCall)
    (h1 : c.name ≠ "check_availability") (h2 : c.name ≠ "finalize_booking")
    (h3 : c.name ≠ "list_bookings") (h4 : c.name ≠ "cancel_booking") :
    handleCallRich u s c =
      (s, { id := c.id, name := c.name, response := ToolOutcome.emptyObj }) := by
  unfold handleCallRich dispatchRich
  simp [h1, h2, h3, h4]

/-- Witness for C5 at the concrete unknown-tool call. -/
theorem unknown_tool_response_witness :
    handleCallRich demoUser freshStateRich unknownCall =
      (freshStateRich,
       { id := unknownCall.id, name := unknownCall.name, response := ToolOutcome.emptyObj }) :=
  unknown_tool_response demoUser freshStateRich unknownCall
    (by decide) (by decide) (by decide) (by decide)

/-! ### C4: playback scheduling intervals

`scheduleAll` replays the per-chunk scheduling arithmetic shared by both
variants (`startAt = max(nextStartTime, ctx.currentTime)`;
`nextStartTime = startAt + duration`) over a sequence of chunks given as
(arrival clock value, duration) pairs, with no interruption in between. -/

/-- Intervals produced by enqueuing chunks in order; each chunk is the pair
(output-device clock at its arrival, duration). -/
def scheduleAll : ℚ → List (ℚ × ℚ) → List (ℚ × ℚ)
  | _, [] => []
  | clk, c :: cs =>
    let r := enqueueChunk clk c.1 c.2
    r.2 :: scheduleAll r.1 cs

/-- Every chunk of the list arrives no later than the playback clock that
is current when it is enqueued (Boolean, evaluated along the fold). -/
def timelyFrom : ℚ → List (ℚ × ℚ) → Bool
  | _, [] => true
  | clk, c :: cs => decide (c.1 ≤ clk) && timelyFrom (max clk c.1 + c.2) cs

/-- The spec side condition "chunks arrive before their predecessor
finishes": every chunk after the first arrives no later than the end of the
chunk before it.  The first chunk may arrive at any time. -/
def timely : ℚ → List (ℚ × ℚ) → Bool
  | _, [] => true
  | clk, c :: cs => timelyFrom (max clk c.1 + c.2) cs

/-- The ideal gapless chain of intervals starting at `t` with the given
durations. -/
def chainFrom : ℚ → List ℚ → List (ℚ × ℚ)
  | _, [] => []
  | t, d :: ds => (t, d) :: chainFrom (t + d) ds

/-- End time of the last interval (the accumulator holds the interval seen
last). -/
def lastEnd : (ℚ × ℚ) → List (ℚ × ℚ) → ℚ
  | c, [] => c.1 + c.2
  | _, c :: t => lastEnd c t

/-- Total span of an interval list: last end minus first start. -/
def spanOf : List (ℚ × ℚ) → ℚ
  | [] => 0
  | c :: t => lastEnd c t - c.1

/-- Under timely arrival, scheduling from clock `clk` produces exactly the
gapless chain starting at `clk`. -/
theorem scheduleAll_timelyFrom (cs : List (ℚ × ℚ)) :
    ∀ clk, timelyFrom clk cs = true →
      scheduleAll clk cs = chainFrom clk (cs.map Prod.snd) := by
  induction cs with
  | nil => intro clk _; rfl
  | cons c t ih =>
    intro clk h
    unfold timelyFrom at h
    rw [Bool.and_eq_true, decide_eq_true_iff] at h
    obtain ⟨h1, h2⟩ := h
    have hm : max clk c.1 = clk := max_eq_left h1
    unfold scheduleAll enqueueChunk chainFrom
    rw [hm] at h2 ⊢
    simp only [List.map_cons]
    rw [ih (clk + c.2) h2]

/-- A timely chunk sequence schedules to some gapless chain. -/
theorem scheduleAll_chain (clk : ℚ) (cs : List (ℚ × ℚ)) (h : timely clk cs = true) :
    ∃ t0, scheduleAll clk cs = chainFrom t0 (cs.map Prod.snd) := by
  cases cs with
  | nil => exact ⟨0, rfl⟩
  | cons c t =>
    refine ⟨max clk c.1, ?_⟩
    unfold timely at h
    unfold scheduleAll enqueueChunk chainFrom
    simp only [List.map_cons]
    rw [scheduleAll_timelyFrom t _ h]

/-- Each interval of a gapless chain starts exactly where the previous one
ends. -/
theorem chainFrom_contiguous (ds : List ℚ) :
    ∀ t, List.Chain' (fun a b : ℚ × ℚ => b.1 = a.1 + a.2) (chainFrom t ds) := by
  induction ds with
  | nil => intro t; exact List.chain'_nil
  | cons d ds ih =>
    intro t
    unfold chainFrom
    apply List.Chain'.cons'
    · exact ih (t + d)
    · intro y hy
      cases ds with
      | nil => simp [chainFrom] at hy
      | cons e es => simp [chainFrom] at hy; rw [← hy]

/-- Every interval of a chain with nonnegative durations starts at or after
the chain origin. -/
theorem chainFrom_lb (ds : List ℚ) (h : ∀ d ∈ ds, 0 ≤ d) :
    ∀ t, ∀ p ∈ chainFrom t ds, t ≤ p.1 := by
  induction ds with
  | nil => intro t p hp; simp [chainFrom] at hp
  | cons d ds ih =>
    intro t p hp
    unfold chainFrom at hp
    rcases List.mem_cons.mp hp with h1 | h2
    · rw [h1]
    · have hd : 0 ≤ d := h d (List.mem_cons_self d ds)
      have := ih (fun e he => h e (List.mem_cons_of_mem d he)) (t + d) p h2
      linarith

/-- Start times of a chain with nonnegative durations are monotone. -/
theorem chainFrom_mono (ds : List ℚ) (h : ∀ d ∈ ds, 0 ≤ d) :
    ∀ t, List.Chain' (fun a b : ℚ × ℚ => a.1 ≤ b.1) (chainFrom t ds) := by
  induction ds with
  | nil => intro t; exact List.chain'_nil
  | cons d ds ih =>
    intro t
    unfold chainFrom
    apply List.Chain'.cons'
    · exact ih (fun e he => h e (List.mem_cons_of_mem d he)) (t + d)
    · intro y hy
      have hd : 0 ≤ d := h d (List.mem_cons_self d ds)
      have hy' : y ∈ chainFrom (t + d) ds := List.mem_of_mem_head? hy
      have := chainFrom_lb ds (fun e he => h e (List.mem_cons_of_mem d he)) (t + d) y hy'
      show (t, d).1 ≤ y.1
      simp only
      linarith

/-- Intervals of a chain with nonnegative durations are pairwise
non-overlapping: each earlier interval ends before a later one starts. -/
theorem chainFrom_pairwise (ds : List ℚ) (h : ∀ d ∈ ds, 0 ≤ d) :
    ∀ t, List.Pairwise (fun a b : ℚ × ℚ => a.1 + a.2 ≤ b.1) (chainFrom t ds) := by
  induction ds with
  | nil => intro t; exact List.Pairwise.nil
  | cons d ds ih =>
    intro t
    unfold chainFrom
    apply List.Pairwise.cons
    · intro p hp
      have := chainFrom_lb ds (fun e he => h e (List.mem_cons_of_mem d he)) (t + d) p hp
      show (t, d).1 + (t, d).2 ≤ p.1
      simp only
      linarith
    · exact ih (fun e he => h e (List.mem_cons_of_mem d he)) (t + d)

/-- The last end of a gapless chain is its origin plus the total duration. -/
theorem lastEnd_chainFrom (ds : List ℚ) :
    ∀ c : ℚ × ℚ, lastEnd c (chainFrom (c.1 + c.2) ds) = c.1 + c.2 + ds.sum := by
  induction ds with
  | nil => intro c; simp [chainFrom, lastEnd]
  | cons d ds ih =>
    intro c
    unfold chainFrom lastEnd
    have := ih (c.1 + c.2, d)
    simp only at this
    rw [show c.1 + c.2 + d = (c.1 + c.2 + d) from rfl] at this
    rw [this]
    simp [List.sum_cons]
    ring

/-- The span of a gapless chain equals the sum of its durations. -/
theorem chainFrom_span (ds : List ℚ) : ∀ t, spanOf (chainFrom t ds) = ds.sum := by
  intro t
  cases ds with
  | nil => rfl
  | cons d ds =>
    unfold chainFrom
    simp only [spanOf]
    have := lastEnd_chainFrom ds (t, d)
    simp only at this
    rw [this]
    rw [List.sum_cons]
    ring

/-- C4 (amended): enqueuing N chunks of nonnegative durations d1..dN with no
interruption, each arriving before its predecessor finishes, yields N
contiguous intervals with monotonically non-decreasing start times, pairwise
non-overlapping, whose total span is d1+...+dN. -/
theorem scheduler_gapless (clk : ℚ) (chunks : List (ℚ × ℚ))
    (hdur : ∀ c ∈ chunks, 0 ≤ c.2)
    (htimely : timely clk chunks = true) :
    List.Chain' (fun a b : ℚ × ℚ => b.1 = a.1 + a.2) (scheduleAll clk chunks) ∧
    List.Chain' (fun a b : ℚ × ℚ => a.1 ≤ b.1) (scheduleAll clk chunks) ∧
    List.Pairwise (fun a b : ℚ × ℚ => a.1 + a.2 ≤ b.1) (scheduleAll clk chunks) ∧
    spanOf (scheduleAll clk chunks) = (chunks.map Prod.snd).sum := by
  obtain ⟨t0, ht⟩ := scheduleAll_chain clk chunks htimely
  rw [ht]
  have hds : ∀ d ∈ chunks.map Prod.snd, 0 ≤ d := by
    intro d hd
    obtain ⟨c, hc, rfl⟩ := List.mem_map.mp hd
    exact hdur c hc
  exact ⟨chainFrom_contiguous _ t0, chainFrom_mono _ hds t0,
         chainFrom_pairwise _ hds t0, chainFrom_span _ t0⟩

/-- C4 counterexample: without the timely-arrival side condition the claim
as stated fails — a second chunk arriving at device time 5, after its
one-second predecessor finished at time 1, is scheduled with a four-second
gap: the intervals are not contiguous and the span exceeds d1+d2. -/
theorem scheduler_gapless_cex :
    ¬ (List.Chain' (fun a b : ℚ × ℚ => b.1 = a.1 + a.2)
         (scheduleAll 0 [(0, 1), (5, 1)]) ∧
       spanOf (scheduleAll 0 [(0, 1), (5, 1)]) =
         (([(0, 1), (5, 1)] : List (ℚ × ℚ)).map Prod.snd).sum) := by
  intro h
  have heval : scheduleAll 0 [(0, 1), (5, 1)] = [((0:ℚ), (1:ℚ)), (5, 1)] := by
    norm_num [scheduleAll, enqueueChunk, max_def]
  have h1 := h.1
  rw [heval, List.chain'_cons] at h1
  have h2 : (5:ℚ) = 0 + 1 := h1.1
  norm_num at h2

/-- Witness for C4 at a concrete timely two-chunk sequence. -/
theorem scheduler_gapless_witness :
    (∀ c ∈ ([(0, 2), (1, 3)] : List (ℚ × ℚ)), 0 ≤ c.2) ∧
    timely 0 [(0, 2), (1, 3)] = true ∧
    (List.Chain' (fun a b : ℚ × ℚ => b.1 = a.1 + a.2) (scheduleAll 0 [(0, 2), (1, 3)]) ∧
     List.Chain' (fun a b : ℚ × ℚ => a.1 ≤ b.1) (scheduleAll 0 [(0, 2), (1, 3)]) ∧
     List.Pairwise (fun a b : ℚ × ℚ => a.1 + a.2 ≤ b.1) (scheduleAll 0 [(0, 2), (1, 3)]) ∧
     spanOf (scheduleAll 0 [(0, 2), (1, 3)]) =
       (([(0, 2), (1, 3)] : List (ℚ × ℚ)).map Prod.snd).sum) :=
  ⟨by norm_num, by norm_num [timely, timelyFrom],
   scheduler_gapless 0 [(0, 2), (1, 3)] (by norm_num) (by norm_num [timely, timelyFrom])⟩

/-! ### C9: audio capture, level meter and mute

One `onaudioprocess` callback invocation per produced frame.  In the richer
variant mute works by disabling the microphone track
(`track.enabled = false`), which makes the frame read as silence; the
callback itself runs unchanged and always encodes and forwards the frame.
In the reduced variant the frame is produced and the meter set, but
encoding/forwarding is skipped while `isMutedRef` holds. -/

/-- A produced audio frame: its samples and their RMS energy
(`Math.sqrt(sum/length)` is a host float operation, carried as a field; a
silenced frame has RMS zero). -/
structure Frame where
  samples : List ℚ
  rms : ℚ
  deriving DecidableEq

/-- PCM16 conversion of one sample. Modelled from the spec: the encoding
step of utils/audioUtils.ts (not under src/) produces PCM16 little-endian;
the host float rounding is abstracted as floor with clamping. -/
def pcm16 (x : ℚ) : Int := max (-32768) (min 32767 ⌊x * 32768⌋)

/-- Modelled from the spec: `createPcmBlob` of utils/audioUtils.ts (not
under src/), the PCM16 wire encoding of a frame (the base64 wrapper adds no
information). -/
def createPcmBlob (samples : List ℚ) : List Int := samples.map pcm16

/-- The silence a disabled microphone track substitutes for the frame. -/
def zeroSamples (fr : Frame) : List ℚ := fr.samples.map (fun _ => 0)

/-- Richer-variant `onaudioprocess` (App.tsx lines 467-485): the smoothed
meter update `level*0.8 + (enabled ? rms : 0)*2.0` and the unconditional
encode-and-forward; with the track disabled the input reads as silence, so
the computed RMS is zero. -/
def processFrameRich (enabled : Bool) (fr : Frame) (level : ℚ) :
    ℚ × Option (List Int) :=
  let inputData := if enabled then fr.samples else zeroSamples fr
  let rms := if enabled then fr.rms else 0
  (level * 0.8 + (if enabled then rms else 0) * 2.0,
   some (createPcmBlob inputData))

/-- Reduced-variant `onaudioprocess` (lines 1098-1113): raw RMS meter, and
the frame is encoded and forwarded only when not muted. -/
def processFrameRed (muted : Bool) (fr : Frame) : ℚ × Option (List Int) :=
  (fr.rms, if muted then none else some (createPcmBlob fr.samples))

/-- A nonzero demonstration frame. -/
def demoFrame : Frame := { samples := [1/2], rms := 1/2 }

/-- C9 counterexample: in the richer variant, while muted, a produced frame
IS still encoded and forwarded to the session (as silence) — the claim that
no frame is encoded or forwarded while muted fails. -/
theorem mute_forwarding_cex :
    (processFrameRich false demoFrame 1).2 ≠ none ∧
    (processFrameRich false demoFrame 1).2 = some (createPcmBlob (zeroSamples demoFrame)) :=
  ⟨Option.some_ne_none _, rfl⟩

/-- C9 (amended): while muted, frames are still produced and drive the level
meter in both variants — smoothed and decaying (`level*0.8`) in the richer
variant, raw RMS in the reduced one.  The reduced variant forwards no frame
while muted and resumes forwarding with the next frame once unmuted; the
richer variant keeps encoding and forwarding every frame, carrying silence
while the track is disabled. -/
theorem mute_forwarding (fr : Frame) (level : ℚ) :
    (processFrameRich false fr level).1 = level * 0.8 ∧
    (processFrameRich false fr level).2 = some (createPcmBlob (zeroSamples fr)) ∧
    (processFrameRich true fr level).1 = level * 0.8 + fr.rms * 2.0 ∧
    (processFrameRich true fr level).2 = some (createPcmBlob fr.samples) ∧
    (processFrameRed true fr).1 = fr.rms ∧
    (processFrameRed true fr).2 = none ∧
    (processFrameRed false fr).2 = some (createPcmBlob fr.samples) := by
  refine ⟨?_, rfl, rfl, rfl, rfl, rfl, rfl⟩
  show level * 0.8 + (0:ℚ) * 2.0 = level * 0.8
  ring

/-! ### C8: session connection state machine

The richer variant owns `connectionState` (types.ts `ConnectionState`).
Events: the Start Voice Call click (with the outcome of `ai.live.connect` —
`false` models the synchronous throw caught at lines 631-636), the channel
callbacks `onopen` / `onclose` / `onerror`, the `startAudio` failure path
(microphone denied, lines 494-499, possible only after `onopen` started the
capture), and the End Call click (lines 639-646).  Callbacks of one channel
follow the protocol discipline of spec section 6: `open` fires at most once
and nothing fires after `close`/`error`; stale callbacks of an abandoned
earlier channel are outside the model (spec section 5: single logical
session).  Guards mirror the UI: the connect button renders only in
`DISCONNECTED`/`ERROR`, End Call only otherwise and only with a session
handle. -/

/-- Connection states (source: types.ts `enum ConnectionState`). -/
inductive ConnectionState where
  | DISCONNECTED
  | CONNECTING
  | CONNECTED
  | ERROR
  deriving DecidableEq

/-- Session-level events. -/
inductive SessEvent where
  | connectClick (ok : Bool)
  | remoteOpen
  | remoteClose
  | remoteError
  | audioFail
  | endCallClick
  deriving DecidableEq

/-- Session state: the connection enum plus the channel bookkeeping —
whether a channel with registered callbacks exists, whether its `onopen`
already fired, whether it closed or errored, and whether `sessionRef.current`
is set (the End Call guard). -/
structure Sess where
  conn : ConnectionState := ConnectionState.DISCONNECTED
  channel : Bool := false
  openFired : Bool := false
  closed : Bool := false
  sessionRef : Bool := false
  deriving DecidableEq

/-- Which events are explicit user actions. -/
def userInitiated : SessEvent → Bool
  | SessEvent.connectClick _ => true
  | SessEvent.endCallClick => true
  | _ => false

/-- One transition of the richer-variant session controller; an event whose
enabling guard fails leaves the state unchanged. -/
def stepSess (s : Sess) (e : SessEvent) : Sess :=
  match e with
  | SessEvent.connectClick ok =>
    if s.conn = ConnectionState.DISCONNECTED ∨ s.conn = ConnectionState.ERROR then
      if ok then
        { s with conn := ConnectionState.CONNECTING, channel := true,
                 openFired := false, closed := false, sessionRef := true }
      else
        { s with conn := ConnectionState.ERROR, channel := false }
    else s
  | SessEvent.remoteOpen =>
    if s.channel = true ∧ s.openFired = false ∧ s.closed = false then
      { s with conn := ConnectionState.CONNECTED, openFired := true }
    else s
  | SessEvent.remoteClose =>
    if s.channel = true ∧ s.closed = false then
      { s with conn := ConnectionState.DISCONNECTED, closed := true }
    else s
  | SessEvent.remoteError =>
    if s.channel = true ∧ s.closed = false then
      { s with conn := ConnectionState.ERROR, closed := true }
    else s
  | SessEvent.audioFail =>
    if s.openFired = true then { s with conn := ConnectionState.ERROR } else s
  | SessEvent.endCallClick =>
    if s.sessionRef = true ∧ s.conn ≠ ConnectionState.DISCONNECTED ∧
       s.conn ≠ ConnectionState.ERROR then
      { s with conn := ConnectionState.DISCONNECTED, sessionRef := false }
    else s

/-- Initial state: disconnected, no channel. -/
def initSess : Sess := {}

/-- State after an event trace. -/
def runSess (evs : List SessEvent) : Sess := evs.foldl stepSess initSess

/-- Unfolding a trace by its last event. -/
theorem runSess_snoc (evs : List SessEvent) (e : SessEvent) :
    runSess (evs ++ [e]) = stepSess (runSess evs) e := by
  simp [runSess, List.foldl_append]

/-- If a trace ends Connected — or merely with a live channel — some prefix
of it was in Connecting. -/
theorem connected_after_connecting_aux (evs : List SessEvent) :
    ((runSess evs).conn = ConnectionState.CONNECTED ∨ (runSess evs).channel = true) →
    ∃ p q, evs = p ++ q ∧ (runSess p).conn = ConnectionState.CONNECTING := by
  induction evs using List.reverseRecOn with
  | nil =>
    intro h
    rcases h with h | h <;> simp [runSess, initSess] at h
  | append_singleton evs e ih =>
    intro h
    rw [runSess_snoc] at h
    have extend : ((runSess evs).conn = ConnectionState.CONNECTED ∨ (runSess evs).channel = true) →
        ∃ p q, evs ++ [e] = p ++ q ∧ (runSess p).conn = ConnectionState.CONNECTING := by
      intro hh
      obtain ⟨p, q, hpq, hc⟩ := ih hh
      exact ⟨p, q ++ [e], by rw [hpq, List.append_assoc], hc⟩
    cases e with
    | connectClick ok =>
      by_cases hcond : (runSess evs).conn = ConnectionState.DISCONNECTED ∨
          (runSess evs).conn = ConnectionState.ERROR
      · cases ok with
        | true =>
          refine ⟨evs ++ [SessEvent.connectClick true], [], by simp, ?_⟩
          rw [runSess_snoc]
          simp [stepSess, hcond]
        | false =>
          simp [stepSess, hcond] at h
      · simp [stepSess, hcond] at h
        exact extend h
    | remoteOpen =>
      by_cases hcond : (runSess evs).channel = true ∧ (runSess evs).openFired = false ∧
          (runSess evs).closed = false
      · exact extend (Or.inr hcond.1)
      · simp [stepSess, hcond] at h
        exact extend h
    | remoteClose =>
      by_cases hcond : (runSess evs).channel = true ∧ (runSess evs).closed = false
      · exact extend (Or.inr hcond.1)
      · simp [stepSess, hcond] at h
        exact extend h
    | remoteError =>
      by_cases hcond : (runSess evs).channel = true ∧ (runSess evs).closed = false
      · exact extend (Or.inr hcond.1)
      · simp [stepSess, hcond] at h
        exact extend h
    | audioFail =>
      by_cases hcond : (runSess evs).openFired = true
      · simp [stepSess, hcond] at h
        first
        | exact extend h
        | exact extend (Or.inr h)
      · simp [stepSess, hcond] at h
        exact extend h
    | endCallClick =>
      by_cases hcond : (runSess evs).sessionRef = true ∧
          (runSess evs).conn ≠ ConnectionState.DISCONNECTED ∧
          (runSess evs).conn ≠ ConnectionState.ERROR
      · simp [stepSess, hcond] at h
        first
        | exact extend h
        | exact extend (Or.inr h)
      · simp [stepSess, hcond] at h
        exact extend h

/-- In the Error state the channel is gone, already opened, or already
closed — so no pending `onopen` can fire. -/
def Inv2 (s : Sess) : Prop :=
  s.conn = ConnectionState.ERROR →
    (s.channel = false ∨ s.openFired = true ∨ s.closed = true)

/-- The Error-state invariant is preserved by every transition. -/
theorem inv2_step (s : Sess) (e : SessEvent) (h : Inv2 s) : Inv2 (stepSess s e) := by
  cases e with
  | connectClick ok =>
    by_cases hcond : s.conn = ConnectionState.DISCONNECTED ∨ s.conn = ConnectionState.ERROR
    · cases ok with
      | true => intro hc; simp [stepSess, hcond] at hc
      | false => intro hc; simp [stepSess, hcond]
    · simpa [stepSess, hcond] using h
  | remoteOpen =>
    by_cases hcond : s.channel = true ∧ s.openFired = false ∧ s.closed = false
    · intro hc; simp [stepSess, hcond] at hc
    · simpa [stepSess, hcond] using h
  | remoteClose =>
    by_cases hcond : s.channel = true ∧ s.closed = false
    · intro hc; simp [stepSess, hcond] at hc
    · simpa [stepSess, hcond] using h
  | remoteError =>
    by_cases hcond : s.channel = true ∧ s.closed = false
    · intro hc; simp [stepSess, hcond]
    · simpa [stepSess, hcond] using h
  | audioFail =>
    by_cases hcond : s.openFired = true
    · intro hc; simp [stepSess, hcond]
    · simpa [stepSess, hcond] using h
  | endCallClick =>
    by_cases hcond : s.sessionRef = true ∧ s.conn ≠ ConnectionState.DISCONNECTED ∧
        s.conn ≠ ConnectionState.ERROR
    · intro hc; simp [stepSess, hcond] at hc
    · simpa [stepSess, hcond] using h

/-- The Error-state invariant holds in every reachable state. -/
theorem inv2_run (evs : List SessEvent) : Inv2 (runSess evs) := by
  have : ∀ (l : List SessEvent) (s : Sess), Inv2 s → Inv2 (l.foldl stepSess s) := by
    intro l
    induction l with
    | nil => intro s hs; exact hs
    | cons e t ih => intro s hs; exact ih (stepSess s e) (inv2_step s e hs)
  apply this
  intro hc
  simp [initSess] at hc

/-- From a reachable Error state, no non-user event can produce Connected. -/
theorem error_no_auto_connect (evs : List SessEvent)
    (herr : (runSess evs).conn = ConnectionState.ERROR)
    (e : SessEvent) (huser : userInitiated e = false) :
    (stepSess (runSess evs) e).conn ≠ ConnectionState.CONNECTED := by
  have hinv := inv2_run evs herr
  cases e with
  | connectClick ok => simp [userInitiated] at huser
  | endCallClick => simp [userInitiated] at huser
  | remoteOpen =>
    have hcond : ¬((runSess evs).channel = true ∧ (runSess evs).openFired = false ∧
        (runSess evs).closed = false) := by
      rcases hinv with h1 | h1 | h1 <;> simp [h1]
    simp [stepSess, hcond, herr]
  | remoteClose =>
    by_cases hcond : (runSess evs).channel = true ∧ (runSess evs).closed = false
    · simp [stepSess, hcond]
    · simp [stepSess, hcond, herr]
  | remoteError =>
    by_cases hcond : (runSess evs).channel = true ∧ (runSess evs).closed = false
    · simp [stepSess, hcond]
    · simp [stepSess, hcond, herr]
  | audioFail =>
    by_cases hcond : (runSess evs).openFired = true
    · simp [stepSess, hcond]
    · simp [stepSess, hcond, herr]

/-- C8: in every reachable execution the state never becomes Connected
without some earlier prefix having been Connecting, and once in Error no
non-user event (remote open/close/error or an audio failure) can take the
state to Connected — only an explicit user reconnect leaves Error toward a
new connection. -/
theorem session_state_machine (evs : List SessEvent) :
    ((runSess evs).conn = ConnectionState.CONNECTED →
      ∃ p q, evs = p ++ q ∧ (runSess p).conn = ConnectionState.CONNECTING) ∧
    ((runSess evs).conn = ConnectionState.ERROR →
      ∀ e, userInitiated e = false →
        (stepSess (runSess evs) e).conn ≠ ConnectionState.CONNECTED) := by
  constructor
  · intro h
    exact connected_after_connecting_aux evs (Or.inl h)
  · intro herr e huser
    exact error_no_auto_connect evs herr e huser

/-- Witness for C8: a connect-open trace ends Connected and has a Connecting
prefix; after connect-error, a stray remote open does not yield Connected. -/
theorem session_state_machine_witness :
    (∃ p q, ([SessEvent.connectClick true, SessEvent.remoteOpen] : List SessEvent) = p ++ q ∧
        (runSess p).conn = ConnectionState.CONNECTING) ∧
    (stepSess (runSess [SessEvent.connectClick true, SessEvent.remoteError])
        SessEvent.remoteOpen).conn ≠ ConnectionState.CONNECTED :=
  ⟨(session_state_machine _).1 (by decide),
   (session_state_machine _).2 (by decide) SessEvent.remoteOpen rfl⟩
